import Mathlib

/-!
Verification of the inner-node representation layer of an Adaptive Radix Tree
(ART) implementation (file `src/nodes/representation.rs`).

Shallow embedding conventions:

* Key bytes (`u8`) are modeled as `Nat` values; theorems carry `b < 256`
  hypotheses where the byte range matters.
* `Header.num_children` is a `u16` in the source; every modeled operation
  increments it at most once from a value that the class invariants bound by
  256, far below `2^16`, so it is modeled as `Nat` (no overflow is reachable
  in any modeled statement).
* The fixed-size arrays `keys`/`child_pointers` of `InnerNode4`/`InnerNode16`
  are only initialized for their first `num_children` slots
  (`initialized_portion` in the source); they are modeled by the list of that
  initialized prefix.  The uninitialized tail is not represented; reading it
  is UB in the source.
* `MaybeUninit` slots of `InnerNode48.child_pointers` are modeled as
  `Option`, with `none` for an uninitialized slot.
* A function that can panic returns `Option`, with `none` meaning a panic
  (failed `assert!`, out-of-bounds `copy_within`, or an explicit `panic!`).
* The child pointers (`OpaqueNodePtr<V>`) are opaque values of a type
  parameter `V`; the node structs never inspect them.
* The `SmallVec<[u8; NUM_PREFIX_BYTES]>` prefix buffer is a `List Nat`
  (`SmallVec::extend` is list append; a SmallVec grows without truncation).
* Because `prefix` is a reserved word of the proof gate, the model spells the
  field and the `*_prefix` methods with `pfx` (`write_prefix` ↦ `writePfx`,
  `read_prefix` ↦ `readPfx`, `prefix_size` ↦ `pfxSize`,
  `match_prefix` ↦ `matchPfx`).
-/

namespace Blart

/-- `NUM_PREFIX_BYTES`: the number of bytes stored inline for path
compression in the node header. -/
def NUM_PREFIX_BYTES : Nat := 8

/-- `NodeType`: the representation tag of nodes. -/
inductive NodeType where
  | Node4
  | Node16
  | Node48
  | Node256
  | Leaf
deriving DecidableEq

/-- `NodeType::upper_capacity`: the upper bound on the number of children of
this node type. -/
def NodeType.upper_capacity : NodeType → Nat
  | .Node4 => 4
  | .Node16 => 16
  | .Node48 => 48
  | .Node256 => 256
  | .Leaf => 0

/-- `Header`: the common header of all inner nodes.  `num_children` is the
number of children, `pfx` models the `prefix: SmallVec<[u8; 8]>` buffer. -/
structure Header where
  num_children : Nat
  pfx : List Nat
deriving DecidableEq

/-- `Header::empty`. -/
def Header.empty : Header :=
  { num_children := 0, pfx := [] }

/-- `Header::write_prefix`: `self.prefix.extend(new_bytes.iter().copied())`.
`SmallVec::extend` appends all the new bytes (spilling to the heap when the
inline capacity of 8 is exceeded); no truncation happens in the source. -/
def Header.writePfx (h : Header) (new_bytes : List Nat) : Header :=
  { h with pfx := h.pfx ++ new_bytes }

/-- `Header::read_prefix`: the initialized portion of the prefix, i.e. the
whole of the `SmallVec`. -/
def Header.readPfx (h : Header) : List Nat :=
  h.pfx

/-- `Header::prefix_size`: the number of bytes in the prefix. -/
def Header.pfxSize (h : Header) : Nat :=
  h.pfx.length

/-- The loop inside `Header::match_prefix`: walk both byte sequences from the
front, counting positions until the first mismatch or until either sequence
(whose minimum length bounds the source's loop) runs out. -/
def matchPfxGo : List Nat → List Nat → Nat
  | x :: xs, y :: ys => if x = y then matchPfxGo xs ys + 1 else 0
  | _, _ => 0

/-- `Header::match_prefix`: number of leading bytes of the stored prefix that
agree with `possible_key`. -/
def Header.matchPfx (h : Header) (possible_key : List Nat) : Nat :=
  matchPfxGo (Header.readPfx h) possible_key

/-- `InnerNode::is_full` (default trait method), transcribed exactly:
`Self::TYPE.upper_capacity() >= self.header().num_children()`. -/
def InnerNode.is_full (t : NodeType) (h : Header) : Bool :=
  decide (h.num_children ≤ NodeType.upper_capacity t)

/-- `slice::binary_search` as used on the (sorted, by invariant I3)
initialized key prefix of `InnerNode4`/`InnerNode16`.  Modeled by a linear
scan that returns exactly what `slice::binary_search` documents for a sorted
slice: `Ok i` with `l[i] = target`, or `Err i` with `i` the insertion point
keeping the slice sorted.  On a strictly ascending slice (the only way the
source calls it, per invariant I3) the two agree; the claims quantify over
nodes satisfying that invariant. -/
def binarySearch : List Nat → Nat → Except Nat Nat
  | [], _ => .error 0
  | x :: xs, t =>
    if x < t then
      match binarySearch xs t with
      | .ok i => .ok (i + 1)
      | .error i => .error (i + 1)
    else if x = t then .ok 0
    else .error 0

/-- Common shape of `InnerNode4<V>` and `InnerNode16<V>`: a header plus the
initialized prefixes of the `keys` and `child_pointers` arrays (only the
first `header.num_children` slots of those arrays are initialized; the
operations' capacity `CAP` is 4 for `InnerNode4` and 16 for `InnerNode16`). -/
structure SeqNode (V : Type) where
  header : Header
  keys : List Nat
  child_pointers : List V
deriving DecidableEq

/-- `InnerNode4::empty` / `InnerNode16::empty`. -/
def SeqNode.empty (V : Type) : SeqNode V :=
  { header := Header.empty, keys := [], child_pointers := [] }

/-- `lookup_child_index`: linear scan of the initialized keys for the first
index holding `key_fragment`. -/
def SeqNode.lookup_child_index (n : SeqNode V) (key_fragment : Nat) : Option Nat :=
  n.keys.findIdx? (fun key => key = key_fragment)

/-- `InnerNode4::lookup_child` / `InnerNode16::lookup_child`: find the index
of the key fragment and read the matching child pointer. -/
def SeqNode.lookup_child (n : SeqNode V) (key_fragment : Nat) : Option V :=
  (SeqNode.lookup_child_index n key_fragment).bind (fun child_index => n.child_pointers[child_index]?)

/-- `InnerNode4::write_child` / `InnerNode16::write_child` with array
capacity `CAP` (4 resp. 16), returning `none` on panic.

* `Ok child_index` from the binary search: overwrite
  `child_pointers[child_index]`.
* `Err child_index`: `assert!(child_index < CAP)` (else `none`);
  when `child_index != CAP - 1`, `copy_within(child_index..num_children,
  child_index + 1)` shifts the tail up one slot — it panics (`none`) unless
  `child_index <= num_children <= CAP` and
  `child_index + 1 + (num_children - child_index) <= CAP` — and the
  subsequent writes of `keys[child_index]`/`child_pointers[child_index]`
  make the initialized prefix `take child_index ++ new :: drop child_index`;
  when `child_index == CAP - 1` the shift is skipped and slot `CAP - 1` is
  written directly, making the initialized prefix of the first
  `num_children + 1` slots `take (CAP-1) ++ [new]`.
  Finally `num_children += 1`. -/
def SeqNode.write_child (CAP : Nat) (n : SeqNode V) (key_fragment : Nat) (child_pointer : V) :
    Option (SeqNode V) :=
  match binarySearch n.keys key_fragment with
  | .ok child_index =>
    some { n with child_pointers := n.child_pointers.set child_index child_pointer }
  | .error child_index =>
    if child_index < CAP then
      if child_index ≠ CAP - 1 then
        if child_index ≤ n.header.num_children ∧ n.header.num_children ≤ CAP ∧
            child_index + 1 + (n.header.num_children - child_index) ≤ CAP then
          some { header := { n.header with num_children := n.header.num_children + 1 },
                 keys := n.keys.take child_index ++ key_fragment :: n.keys.drop child_index,
                 child_pointers :=
                   n.child_pointers.take child_index ++ child_pointer :: n.child_pointers.drop child_index }
        else none
      else
        some { header := { n.header with num_children := n.header.num_children + 1 },
               keys := n.keys.take (CAP - 1) ++ [key_fragment],
               child_pointers := n.child_pointers.take (CAP - 1) ++ [child_pointer] }
    else none

/-- `InnerNode4::iter` / `InnerNode16::iter`: the initialized keys zipped
with the initialized child pointers. -/
def SeqNode.iter (n : SeqNode V) : List (Nat × V) :=
  n.keys.zip n.child_pointers

/-- `first_child` for `InnerNode4`/`InnerNode16`: `Some(self.iter().next()?.1)`. -/
def SeqNode.first_child (n : SeqNode V) : Option V :=
  (SeqNode.iter n).head?.map Prod.snd

/-- `last_child` for `InnerNode4`/`InnerNode16`: `Some(self.iter().next_back()?.1)`. -/
def SeqNode.last_child (n : SeqNode V) : Option V :=
  (SeqNode.iter n).getLast?.map Prod.snd

/-- `InnerNode4::grow`: copy the header and the first `num_children` keys and
child pointers into a (larger) `InnerNode16`, which has the same model
shape. -/
def InnerNode4.grow (n : SeqNode V) : SeqNode V :=
  { header := n.header,
    keys := n.keys.take n.header.num_children,
    child_pointers := n.child_pointers.take n.header.num_children }

/-- `RestrictedNodeIndex<LIMIT>`: a `u8` index only valid from `0` to
`LIMIT - 1` (`LIMIT` is a `u8` in the source, modeled as `Nat`). -/
structure RestrictedNodeIndex (LIMIT : Nat) where
  value : Nat
deriving DecidableEq

/-- `RestrictedNodeIndex::EMPTY`: the placeholder whose stored value is
`LIMIT` itself. -/
def RestrictedNodeIndex.EMPTY (LIMIT : Nat) : RestrictedNodeIndex LIMIT :=
  ⟨LIMIT⟩

/-- `TryFromByteError(limit, value)`: the error for out-of-range restricted
index construction (field `.0` is the limit, field `.1` the offending
value). -/
structure TryFromByteError where
  limit : Nat
  value : Nat
deriving DecidableEq

/-- `impl TryFrom<usize> for RestrictedNodeIndex<LIMIT>`. -/
def RestrictedNodeIndex.tryFrom (LIMIT : Nat) (value : Nat) :
    Except TryFromByteError (RestrictedNodeIndex LIMIT) :=
  if value < LIMIT then Except.ok ⟨value⟩ else Except.error ⟨LIMIT, value⟩

/-- `InnerNode48<V>`.  `child_indices` has length 256 and maps a key byte to
an index into `child_pointers`; the `RestrictedNodeIndex<48>` entries are
modeled by their stored `u8` value (the type is `repr(transparent)`), with
`48` the `EMPTY` sentinel.  `child_pointers` has length 48; a slot is `none`
while uninitialized. -/
structure InnerNode48 (V : Type) where
  header : Header
  child_indices : List Nat
  child_pointers : List (Option V)
deriving DecidableEq

/-- `InnerNode48::empty`. -/
def InnerNode48.empty (V : Type) : InnerNode48 V :=
  { header := Header.empty,
    child_indices := List.replicate 256 48,
    child_pointers := List.replicate 48 none }

/-- `InnerNode48::initialized_child_pointers`: the first `num_children`
slots of `child_pointers`. -/
def InnerNode48.initialized_child_pointers (n : InnerNode48 V) : List (Option V) :=
  n.child_pointers.take n.header.num_children

/-- `InnerNode48::lookup_child`: read `child_indices[key_fragment]`; if it is
not `EMPTY`, index the initialized child pointers with it.  An out-of-range
or uninitialized access (impossible under the class invariants, UB/panic in
the source) surfaces as `none`. -/
def InnerNode48.lookup_child (n : InnerNode48 V) (key_fragment : Nat) : Option V :=
  let index := n.child_indices.getD key_fragment 48
  if index ≠ 48 then
    (InnerNode48.initialized_child_pointers n).getD index none
  else none

/-- `InnerNode48::write_child`: if `child_indices[key_fragment]` is `EMPTY`,
take `child_index = num_children`, `assert!(child_index < 48)` (else panic,
modeled `none`), record it and bump `num_children`; otherwise reuse the
existing index.  Then write `child_pointers[child_index]`. -/
def InnerNode48.write_child (n : InnerNode48 V) (key_fragment : Nat) (child_pointer : V) :
    Option (InnerNode48 V) :=
  if n.child_indices.getD key_fragment 48 = 48 then
    let child_index := n.header.num_children
    if child_index < 48 then
      some { header := { n.header with num_children := n.header.num_children + 1 },
             child_indices := n.child_indices.set key_fragment child_index,
             child_pointers := n.child_pointers.set child_index (some child_pointer) }
    else none
  else
    some { n with
           child_pointers :=
             n.child_pointers.set (n.child_indices.getD key_fragment 48) (some child_pointer) }

/-- `InnerNode48::iter`: walk the 256 `child_indices` entries in ascending
key-byte order, skipping `EMPTY`, yielding the key byte paired with the
indexed initialized child pointer. -/
def InnerNode48.iter (n : InnerNode48 V) : List (Nat × V) :=
  (List.range 256).filterMap (fun key_fragment =>
    let index := n.child_indices.getD key_fragment 48
    if index ≠ 48 then
      ((InnerNode48.initialized_child_pointers n).getD index none).map
        (fun child_pointer => (key_fragment, child_pointer))
    else none)

/-- `first_child` for `InnerNode48`. -/
def InnerNode48.first_child (n : InnerNode48 V) : Option V :=
  (InnerNode48.iter n).head?.map Prod.snd

/-- `last_child` for `InnerNode48`. -/
def InnerNode48.last_child (n : InnerNode48 V) : Option V :=
  (InnerNode48.iter n).getLast?.map Prod.snd

/-- The loop in `InnerNode16::grow` building the `child_indices` array of the
new `InnerNode48`: `for (index, key) in keys.iter().enumerate() {
child_indices[key] = index }`, with `index` the running counter.  (The
`RestrictedNodeIndex::<48>::try_from(index).unwrap()` cannot fail since
`index < 16`.) -/
def buildChildIndices : Nat → List Nat → List Nat → List Nat
  | _, [], acc => acc
  | index, key :: keys, acc => buildChildIndices (index + 1) keys (acc.set key index)

/-- `InnerNode16::grow`: same header; `child_indices` built from the
initialized keys (all other entries `EMPTY`); the initialized child pointers
copied into the first `num_children` slots of the new 48-slot array. -/
def InnerNode16.grow (n : SeqNode V) : InnerNode48 V :=
  { header := n.header,
    child_indices :=
      buildChildIndices 0 (n.keys.take n.header.num_children) (List.replicate 256 48),
    child_pointers :=
      ((n.child_pointers.take n.header.num_children).map some) ++
        List.replicate (48 - n.header.num_children) none }

/-- `InnerNode256<V>`: `child_pointers` has length 256 and directly maps a
key byte to an optional child. -/
structure InnerNode256 (V : Type) where
  header : Header
  child_pointers : List (Option V)
deriving DecidableEq

/-- `InnerNode256::empty`. -/
def InnerNode256.empty (V : Type) : InnerNode256 V :=
  { header := Header.empty, child_pointers := List.replicate 256 none }

/-- `InnerNode256::lookup_child`: direct index. -/
def InnerNode256.lookup_child (n : InnerNode256 V) (key_fragment : Nat) : Option V :=
  n.child_pointers.getD key_fragment none

/-- `InnerNode256::write_child`: read the existing slot, store the new child,
and bump `num_children` only if the slot was empty.  Total: no assertion and
no possible panic (`key_fragment` is a `u8`, always in bounds of the 256
array). -/
def InnerNode256.write_child (n : InnerNode256 V) (key_fragment : Nat) (child_pointer : V) :
    InnerNode256 V :=
  let existing_pointer := n.child_pointers.getD key_fragment none
  { header :=
      { n.header with
        num_children :=
          if existing_pointer.isNone then n.header.num_children + 1 else n.header.num_children },
    child_pointers := n.child_pointers.set key_fragment (some child_pointer) }

/-- `InnerNode48::grow`: for each key byte with a non-`EMPTY` index, the new
`InnerNode256` stores the indexed initialized child pointer (the loop over
`self.iter()` writes exactly that into slot `key_fragment`); every other
slot stays `None`. -/
def InnerNode48.grow (n : InnerNode48 V) : InnerNode256 V :=
  { header := n.header,
    child_pointers :=
      (List.range 256).map (fun key_fragment =>
        let index := n.child_indices.getD key_fragment 48
        if index ≠ 48 then
          (InnerNode48.initialized_child_pointers n).getD index none
        else none) }

/-- `InnerNode256::grow`: `panic!("unable to grow a Node256, ...")`; the
grown type is `!` (never), so the model returns `Option Empty` and always
panics. -/
def InnerNode256.grow (_n : InnerNode256 V) : Option Empty :=
  none

/-- `InnerNode256::iter`: filter-map over the 256 slots in ascending
key-byte order. -/
def InnerNode256.iter (n : InnerNode256 V) : List (Nat × V) :=
  (List.range 256).filterMap (fun key_fragment =>
    (n.child_pointers.getD key_fragment none).map
      (fun child_pointer => (key_fragment, child_pointer)))

/-- `first_child` for `InnerNode256`. -/
def InnerNode256.first_child (n : InnerNode256 V) : Option V :=
  (InnerNode256.iter n).head?.map Prod.snd

/-- `last_child` for `InnerNode256`. -/
def InnerNode256.last_child (n : InnerNode256 V) : Option V :=
  (InnerNode256.iter n).getLast?.map Prod.snd

/-- Class invariants of `InnerNode4` (`CAP = 4`) / `InnerNode16`
(`CAP = 16`): the two arrays are initialized for exactly
`header.num_children` slots, `num_children` is within capacity, the
initialized keys are strictly ascending (invariant I3) and are bytes. -/
def SeqNode.wf (CAP : Nat) (n : SeqNode V) : Prop :=
  n.keys.length = n.header.num_children ∧
  n.child_pointers.length = n.header.num_children ∧
  n.header.num_children ≤ CAP ∧
  List.Sorted (· < ·) n.keys ∧
  ∀ k ∈ n.keys, k < 256

/-- Class invariants of `InnerNode48` (invariant I4): array lengths, the
capacity bound, every non-`EMPTY` index points into the initialized portion
of `child_pointers`, initialized slots really are initialized, and distinct
key bytes use distinct slots. -/
def InnerNode48.wf (n : InnerNode48 V) : Prop :=
  n.child_indices.length = 256 ∧
  n.child_pointers.length = 48 ∧
  n.header.num_children ≤ 48 ∧
  (∀ b < 256, n.child_indices.getD b 48 ≠ 48 →
    n.child_indices.getD b 48 < n.header.num_children) ∧
  (∀ i < n.header.num_children, (n.child_pointers.getD i none).isSome = true) ∧
  (∀ b1 < 256, ∀ b2 < 256, b1 ≠ b2 →
    n.child_indices.getD b1 48 ≠ 48 → n.child_indices.getD b2 48 ≠ 48 →
    n.child_indices.getD b1 48 ≠ n.child_indices.getD b2 48)

/-- Class invariants of `InnerNode256`: array length and capacity bound. -/
def InnerNode256.wf (n : InnerNode256 V) : Prop :=
  n.child_pointers.length = 256 ∧
  n.header.num_children ≤ 256

/-! ### Helper lemmas about `matchPfxGo` -/

theorem matchPfxGo_le_min (xs ys : List Nat) :
    matchPfxGo xs ys ≤ min xs.length ys.length := by
  induction xs generalizing ys with
  | nil => simp [matchPfxGo]
  | cons x xs ih =>
    cases ys with
    | nil => simp [matchPfxGo]
    | cons y ys =>
      by_cases hxy : x = y
      · have := ih ys
        simp only [matchPfxGo, if_pos hxy, List.length_cons]
        omega
      · simp [matchPfxGo, hxy]

theorem matchPfxGo_nil (ys : List Nat) : matchPfxGo [] ys = 0 := by
  cases ys <;> rfl

theorem matchPfxGo_take (xs ys : List Nat) :
    xs.take (matchPfxGo xs ys) = ys.take (matchPfxGo xs ys) := by
  induction xs generalizing ys with
  | nil => simp [matchPfxGo_nil]
  | cons x xs ih =>
    cases ys with
    | nil => simp [matchPfxGo]
    | cons y ys =>
      by_cases hxy : x = y
      · subst hxy
        simp [matchPfxGo, List.take_succ_cons, ih ys]
      · simp [matchPfxGo, hxy]

theorem matchPfxGo_maximal (xs ys : List Nat) (m : Nat)
    (hm : m ≤ min xs.length ys.length) (h : xs.take m = ys.take m) :
    m ≤ matchPfxGo xs ys := by
  induction xs generalizing ys m with
  | nil => simp at hm; omega
  | cons x xs ih =>
    cases ys with
    | nil => simp at hm; omega
    | cons y ys =>
      cases m with
      | zero => omega
      | succ m =>
        simp only [List.take_succ_cons, List.cons.injEq] at h
        simp only [List.length_cons] at hm
        have : m ≤ matchPfxGo xs ys := ih ys m (by omega) h.2
        simp only [matchPfxGo, if_pos h.1]
        omega

/-! ### Helper lemmas about `binarySearch` -/

theorem binarySearch_ok_spec :
    ∀ (l : List Nat) (t i : Nat), binarySearch l t = .ok i →
      l[i]? = some t ∧ ∀ x ∈ l.take i, x < t := by
  intro l
  induction l with
  | nil => intro t i h; simp [binarySearch] at h
  | cons x xs ih =>
    intro t i h
    simp only [binarySearch] at h
    by_cases h1 : x < t
    · rw [if_pos h1] at h
      cases hb : binarySearch xs t with
      | ok j =>
        rw [hb] at h
        simp only [Except.ok.injEq] at h
        subst h
        obtain ⟨hj1, hj2⟩ := ih t j hb
        refine ⟨by simpa using hj1, ?_⟩
        intro y hy
        rw [List.take_succ_cons] at hy
        rcases List.mem_cons.mp hy with rfl | hy2
        · exact h1
        · exact hj2 y hy2
      | error j => rw [hb] at h; simp at h
    · rw [if_neg h1] at h
      by_cases h2 : x = t
      · rw [if_pos h2] at h
        simp only [Except.ok.injEq] at h
        subst h
        exact ⟨by simp [h2], by simp⟩
      · rw [if_neg h2] at h
        simp at h

theorem binarySearch_err_spec :
    ∀ (l : List Nat) (t i : Nat), binarySearch l t = .error i →
      i ≤ l.length ∧ (∀ x ∈ l.take i, x < t) ∧ ∀ y, l[i]? = some y → t < y := by
  intro l
  induction l with
  | nil =>
    intro t i h
    simp only [binarySearch, Except.error.injEq] at h
    subst h
    exact ⟨by simp, by simp, by simp⟩
  | cons x xs ih =>
    intro t i h
    simp only [binarySearch] at h
    by_cases h1 : x < t
    · rw [if_pos h1] at h
      cases hb : binarySearch xs t with
      | ok j => rw [hb] at h; simp at h
      | error j =>
        rw [hb] at h
        simp only [Except.error.injEq] at h
        subst h
        obtain ⟨hj1, hj2, hj3⟩ := ih t j hb
        refine ⟨by simp; omega, ?_, by simpa using hj3⟩
        intro y hy
        rw [List.take_succ_cons] at hy
        rcases List.mem_cons.mp hy with rfl | hy2
        · exact h1
        · exact hj2 y hy2
    · rw [if_neg h1] at h
      by_cases h2 : x = t
      · rw [if_pos h2] at h; simp at h
      · rw [if_neg h2] at h
        simp only [Except.error.injEq] at h
        subst h
        refine ⟨by simp, by simp, ?_⟩
        intro y hy
        simp only [List.getElem?_cons_zero, Option.some.injEq] at hy
        subst hy
        omega

/-- Under sortedness, everything at or after the insertion point of a failed
binary search is strictly greater than the probe. -/
theorem binarySearch_err_drop (l : List Nat) (t i : Nat)
    (hs : List.Sorted (· < ·) l) (h : binarySearch l t = .error i) :
    ∀ x ∈ l.drop i, t < x := by
  obtain ⟨hle, htake, hget⟩ := binarySearch_err_spec l t i h
  intro x hx
  by_cases hi : i < l.length
  · rw [← List.getElem_cons_drop l i hi] at hx
    rcases List.mem_cons.mp hx with rfl | hx2
    · exact hget _ (List.getElem?_eq_getElem hi)
    · have h1 : t < l[i] := hget _ (List.getElem?_eq_getElem hi)
      obtain ⟨j, hj, rfl⟩ := List.getElem_of_mem hx2
      have hjl : j < l.length - (i + 1) := by simpa [List.length_drop] using hj
      have hlen : i + 1 + j < l.length := by omega
      have heq : (l.drop (i + 1))[j] = l[i + 1 + j] := by
        have hq := List.getElem?_drop l (i + 1) j
        rw [List.getElem?_eq_getElem hj, List.getElem?_eq_getElem hlen] at hq
        exact Option.some.inj hq
      rw [heq]
      have h2 : l[i] < l[i + 1 + j] := by
        rw [List.Sorted] at hs
        exact List.pairwise_iff_getElem.mp hs i (i + 1 + j) hi hlen (by omega)
      omega
  · rw [List.drop_eq_nil_of_le (by omega)] at hx
    simp at hx

/-- Under sortedness, a failed binary search means the probe is absent. -/
theorem binarySearch_err_not_mem (l : List Nat) (t i : Nat)
    (hs : List.Sorted (· < ·) l) (h : binarySearch l t = .error i) :
    t ∉ l := by
  intro hmem
  obtain ⟨-, htake, -⟩ := binarySearch_err_spec l t i h
  have hdrop := binarySearch_err_drop l t i hs h
  rw [← List.take_append_drop i l, List.mem_append] at hmem
  rcases hmem with h4 | h4
  · exact lt_irrefl t (htake t h4)
  · exact lt_irrefl t (hdrop t h4)

/-! ### Helper lemmas about the sequential (`InnerNode4`/`InnerNode16`) model -/

/-- If position `i` holds `t` and everything before `i` is `< t`, the linear
index scan finds exactly `i`. -/
theorem findIdx?_eq_of_take (l : List Nat) (t i : Nat)
    (hget : l[i]? = some t) (htake : ∀ x ∈ l.take i, x < t) :
    l.findIdx? (fun k => k = t) = some i := by
  obtain ⟨hi, hgi⟩ := List.getElem?_eq_some_iff.mp hget
  rw [List.findIdx?_eq_some_iff_getElem]
  refine ⟨hi, by simp [hgi], ?_⟩
  intro j hj
  have hmem : l[j] ∈ l.take i := by
    rw [List.mem_take_iff_getElem]
    exact ⟨j, by omega, rfl⟩
  have := htake _ hmem
  simp only [decide_eq_true_eq]
  omega

/-- Bridge between `lookup_child` and membership in `iter` for the
sequential node model (needs matching lengths and key uniqueness). -/
theorem seq_lookup_eq_some_iff (n : SeqNode V) (b : Nat) (p : V)
    (hl : n.child_pointers.length = n.keys.length) (hnd : n.keys.Nodup) :
    SeqNode.lookup_child n b = some p ↔ (b, p) ∈ SeqNode.iter n := by
  constructor
  · intro h
    rw [SeqNode.lookup_child, SeqNode.lookup_child_index] at h
    cases hfi : n.keys.findIdx? (fun key => key = b) with
    | none => rw [hfi] at h; simp at h
    | some i =>
      rw [hfi] at h
      simp only [Option.some_bind] at h
      obtain ⟨hilt, hpi, -⟩ := List.findIdx?_eq_some_iff_getElem.mp hfi
      obtain ⟨hi2, hp2⟩ := List.getElem?_eq_some_iff.mp h
      rw [SeqNode.iter, List.mem_iff_getElem]
      refine ⟨i, by simp [List.length_zip]; omega, ?_⟩
      rw [List.getElem_zip, hp2]
      simp only [decide_eq_true_eq] at hpi
      rw [hpi]
  · intro h
    rw [SeqNode.iter, List.mem_iff_getElem] at h
    obtain ⟨i, hi, hzip⟩ := h
    rw [List.getElem_zip, Prod.mk.injEq] at hzip
    obtain ⟨hk, hp⟩ := hzip
    have hilen : i < n.keys.length := by
      simp [List.length_zip] at hi
      omega
    rw [SeqNode.lookup_child, SeqNode.lookup_child_index]
    have hfi : n.keys.findIdx? (fun key => key = b) = some i := by
      rw [List.findIdx?_eq_some_iff_getElem]
      refine ⟨hilen, by simp [hk], ?_⟩
      intro j hj
      simp only [decide_eq_true_eq]
      intro hjb
      have : j = i := by
        rw [List.nodup_iff_injective_get] at hnd
        have hget : n.keys.get ⟨j, by omega⟩ = n.keys.get ⟨i, hilen⟩ := by
          simp only [List.get_eq_getElem]
          rw [hjb, hk]
        have := hnd hget
        simpa using this
      omega
    rw [hfi]
    simp only [Option.some_bind]
    rw [List.getElem?_eq_getElem (by omega), hp]

/-- `lookup_child` misses exactly when the byte is not among the keys. -/
theorem seq_lookup_eq_none_iff (n : SeqNode V) (b : Nat)
    (hl : n.child_pointers.length = n.keys.length) :
    SeqNode.lookup_child n b = none ↔ b ∉ n.keys := by
  constructor
  · intro h hmem
    obtain ⟨i, hi, hk⟩ := List.getElem_of_mem hmem
    rw [SeqNode.lookup_child, SeqNode.lookup_child_index] at h
    cases hfi : n.keys.findIdx? (fun key => key = b) with
    | none =>
      rw [List.findIdx?_eq_none_iff] at hfi
      have := hfi _ (List.getElem_mem hi)
      simp [hk] at this
    | some j =>
      rw [hfi] at h
      obtain ⟨hjlt, -, -⟩ := List.findIdx?_eq_some_iff_getElem.mp hfi
      simp only [Option.some_bind] at h
      rw [List.getElem?_eq_getElem (by omega)] at h
      simp at h
  · intro hmem
    rw [SeqNode.lookup_child, SeqNode.lookup_child_index]
    have hfi : n.keys.findIdx? (fun key => key = b) = none := by
      rw [List.findIdx?_eq_none_iff]
      intro x hx
      simp only [decide_eq_false_iff_not]
      intro hxb
      exact hmem (hxb ▸ hx)
    rw [hfi]
    rfl

/-- Inserting `t` at a position where everything before is smaller and
everything after is larger keeps the keys strictly ascending. -/
theorem sorted_insert_sorted (l : List Nat) (i t : Nat)
    (hs : List.Sorted (· < ·) l)
    (hlt : ∀ x ∈ l.take i, x < t)
    (hgt : ∀ x ∈ l.drop i, t < x) :
    List.Sorted (· < ·) (l.take i ++ t :: l.drop i) := by
  have hsplit : List.Sorted (· < ·) (l.take i ++ l.drop i) := by
    rw [List.take_append_drop]
    exact hs
  rw [List.Sorted, List.pairwise_append] at hsplit
  rw [List.Sorted, List.pairwise_append]
  refine ⟨hsplit.1, ?_, ?_⟩
  · rw [List.pairwise_cons]
    exact ⟨hgt, hsplit.2.1⟩
  · intro a ha y hy
    rcases List.mem_cons.mp hy with rfl | hy2
    · exact hlt a ha
    · exact hsplit.2.2 a ha y hy2

/-- `write_child` in the miss case on a non-full node: the new key and child
are inserted at the binary-search insertion point and `num_children` is
bumped.  (Both source branches — shifting `copy_within` and the direct write
into the last slot — produce this same initialized prefix.) -/
theorem write_child_err_eq (CAP : Nat) (n : SeqNode V) (b : Nat) (p : V) (i : Nat)
    (hkl : n.keys.length = n.header.num_children)
    (hpl : n.child_pointers.length = n.header.num_children)
    (hnf : n.header.num_children < CAP)
    (hbs : binarySearch n.keys b = .error i) :
    SeqNode.write_child CAP n b p =
      some { header := { n.header with num_children := n.header.num_children + 1 },
             keys := n.keys.take i ++ b :: n.keys.drop i,
             child_pointers :=
               n.child_pointers.take i ++ p :: n.child_pointers.drop i } := by
  have hi : i ≤ n.header.num_children := by
    have := (binarySearch_err_spec _ _ _ hbs).1
    omega
  simp only [SeqNode.write_child, hbs]
  rw [if_pos (show i < CAP by omega)]
  by_cases hce : i = CAP - 1
  · rw [if_neg (by omega : ¬ i ≠ CAP - 1)]
    have hnci : n.header.num_children = i := by omega
    have hdk : n.keys.drop i = [] := List.drop_eq_nil_of_le (by omega)
    have hdp : n.child_pointers.drop i = [] := List.drop_eq_nil_of_le (by omega)
    rw [hdk, hdp, ← hce]
  · rw [if_pos hce,
      if_pos (by omega :
        i ≤ n.header.num_children ∧ n.header.num_children ≤ CAP ∧
          i + 1 + (n.header.num_children - i) ≤ CAP)]

/-- Inserting at index `i ≤ l.length` puts the new element at index `i`. -/
theorem insert_getElem_self (l : List α) (i : Nat) (a : α) (hi : i ≤ l.length) :
    (l.take i ++ a :: l.drop i)[i]? = some a := by
  rw [List.getElem?_append_right (by simp [List.length_take])]
  have h1 : (l.take i).length = i := by
    simp [List.length_take]
    omega
  rw [h1, Nat.sub_self]
  simp

/-- Inserting at index `i ≤ l.length` leaves the first `i` elements alone. -/
theorem insert_take_take (l : List α) (i : Nat) (a : α) (hi : i ≤ l.length) :
    (l.take i ++ a :: l.drop i).take i = l.take i :=
  List.take_left' (by simp [List.length_take]; omega)

/-- Full functional specification of `write_child` on a non-full, invariant-
satisfying `InnerNode4`/`InnerNode16`: no panic, the written byte maps to the
new child, every other byte keeps its binding, and `num_children` grows by
one exactly on a fresh byte. -/
theorem seq_write_child_spec (CAP : Nat) (n : SeqNode V) (b : Nat) (p : V)
    (hwf : SeqNode.wf CAP n) (hnf : n.header.num_children < CAP) :
    ∃ n2, SeqNode.write_child CAP n b p = some n2 ∧
      SeqNode.lookup_child n2 b = some p ∧
      (∀ b2, b2 ≠ b → SeqNode.lookup_child n2 b2 = SeqNode.lookup_child n b2) ∧
      (SeqNode.lookup_child n b = none →
        n2.header.num_children = n.header.num_children + 1) ∧
      (SeqNode.lookup_child n b ≠ none →
        n2.header.num_children = n.header.num_children) := by
  obtain ⟨hkl, hpl, hcap, hsorted, hbytes⟩ := hwf
  cases hbs : binarySearch n.keys b with
  | ok i =>
    obtain ⟨hbi, htake⟩ := binarySearch_ok_spec _ _ _ hbs
    obtain ⟨hilt, hgi⟩ := List.getElem?_eq_some_iff.mp hbi
    have hfi : n.keys.findIdx? (fun key => key = b) = some i := findIdx?_eq_of_take _ _ _ hbi htake
    have hlook : SeqNode.lookup_child n b = n.child_pointers[i]? := by
      simp only [SeqNode.lookup_child, SeqNode.lookup_child_index, hfi, Option.some_bind]
    refine ⟨{ n with child_pointers := n.child_pointers.set i p },
      by simp only [SeqNode.write_child, hbs], ?_, ?_, ?_, ?_⟩
    · simp only [SeqNode.lookup_child, SeqNode.lookup_child_index, hfi, Option.some_bind]
      exact List.getElem?_set_self (by omega)
    · intro b2 hb2
      simp only [SeqNode.lookup_child, SeqNode.lookup_child_index]
      cases hf2 : n.keys.findIdx? (fun key => key = b2) with
      | none => rfl
      | some j =>
        simp only [Option.some_bind]
        obtain ⟨hjlt, hpj, -⟩ := List.findIdx?_eq_some_iff_getElem.mp hf2
        simp only [decide_eq_true_eq] at hpj
        have hji : i ≠ j := by
          intro hEq
          subst hEq
          exact hb2 (by rw [← hpj, hgi])
        exact List.getElem?_set_ne hji
    · intro hnone
      rw [hlook, List.getElem?_eq_getElem (by omega)] at hnone
      simp at hnone
    · intro _
      rfl
  | error i =>
    have hmem : b ∉ n.keys := binarySearch_err_not_mem _ _ _ hsorted hbs
    have hi : i ≤ n.header.num_children := by
      have := (binarySearch_err_spec _ _ _ hbs).1
      omega
    have hik : i ≤ n.keys.length := by omega
    have hip : i ≤ n.child_pointers.length := by omega
    have htake := (binarySearch_err_spec _ _ _ hbs).2.1
    have hdrop := binarySearch_err_drop _ _ _ hsorted hbs
    have hnone : SeqNode.lookup_child n b = none :=
      (seq_lookup_eq_none_iff n b (by omega)).mpr hmem
    have hsorted2 : List.Sorted (· < ·) (n.keys.take i ++ b :: n.keys.drop i) :=
      sorted_insert_sorted _ _ _ hsorted htake hdrop
    refine ⟨_, write_child_err_eq CAP n b p i hkl hpl hnf hbs, ?_, ?_, ?_, ?_⟩
    · simp only [SeqNode.lookup_child, SeqNode.lookup_child_index]
      have hfi : (n.keys.take i ++ b :: n.keys.drop i).findIdx? (fun key => key = b) =
          some i := by
        apply findIdx?_eq_of_take _ _ _ (insert_getElem_self _ _ _ hik)
        rw [insert_take_take _ _ _ hik]
        exact htake
      rw [hfi]
      simp only [Option.some_bind]
      exact insert_getElem_self _ _ _ hip
    · intro b2 hb2
      have hnd : n.keys.Nodup := hsorted.nodup
      have hnd2 : (n.keys.take i ++ b :: n.keys.drop i).Nodup := hsorted2.nodup
      have hlen2 :
          (n.child_pointers.take i ++ p :: n.child_pointers.drop i).length =
            (n.keys.take i ++ b :: n.keys.drop i).length := by
        simp [List.length_take, List.length_drop]
        omega
      have hlen1 : n.child_pointers.length = n.keys.length := by omega
      have hzip2 :
          (n.keys.take i ++ b :: n.keys.drop i).zip
              (n.child_pointers.take i ++ p :: n.child_pointers.drop i) =
            (n.keys.take i).zip (n.child_pointers.take i) ++
              (b, p) :: (n.keys.drop i).zip (n.child_pointers.drop i) := by
        rw [List.zip_append (by simp [List.length_take]; omega), List.zip_cons_cons]
      have hzip1 :
          n.keys.zip n.child_pointers =
            (n.keys.take i).zip (n.child_pointers.take i) ++
              (n.keys.drop i).zip (n.child_pointers.drop i) := by
        conv_lhs =>
          rw [← List.take_append_drop i n.keys, ← List.take_append_drop i n.child_pointers]
        rw [List.zip_append (by simp [List.length_take]; omega)]
      show SeqNode.lookup_child
          ⟨{ n.header with num_children := n.header.num_children + 1 },
            n.keys.take i ++ b :: n.keys.drop i,
            n.child_pointers.take i ++ p :: n.child_pointers.drop i⟩ b2 =
        SeqNode.lookup_child n b2
      cases hl2 : SeqNode.lookup_child
          ⟨{ n.header with num_children := n.header.num_children + 1 },
            n.keys.take i ++ b :: n.keys.drop i,
            n.child_pointers.take i ++ p :: n.child_pointers.drop i⟩ b2 with
      | some q =>
        have hmem2 := (seq_lookup_eq_some_iff _ b2 q hlen2 hnd2).mp hl2
        simp only [SeqNode.iter] at hmem2
        rw [hzip2, List.mem_append, List.mem_cons] at hmem2
        have hmem1 : (b2, q) ∈ n.keys.zip n.child_pointers := by
          rw [hzip1, List.mem_append]
          rcases hmem2 with h | h | h
          · exact Or.inl h
          · exact absurd (congrArg Prod.fst h) hb2
          · exact Or.inr h
        rw [(seq_lookup_eq_some_iff n b2 q hlen1 hnd).mpr (by simpa [SeqNode.iter] using hmem1)]
      | none =>
        cases hl1 : SeqNode.lookup_child n b2 with
        | none => rfl
        | some q =>
          have hmem1 := (seq_lookup_eq_some_iff n b2 q hlen1 hnd).mp hl1
          simp only [SeqNode.iter] at hmem1
          rw [hzip1, List.mem_append] at hmem1
          have hmem2 : (b2, q) ∈
              (n.keys.take i ++ b :: n.keys.drop i).zip
                (n.child_pointers.take i ++ p :: n.child_pointers.drop i) := by
            rw [hzip2, List.mem_append, List.mem_cons]
            rcases hmem1 with h | h
            · exact Or.inl h
            · exact Or.inr (Or.inr h)
          have hsq := (seq_lookup_eq_some_iff
              ⟨{ n.header with num_children := n.header.num_children + 1 },
                n.keys.take i ++ b :: n.keys.drop i,
                n.child_pointers.take i ++ p :: n.child_pointers.drop i⟩ b2 q hlen2 hnd2).mpr
            (by simpa [SeqNode.iter] using hmem2)
          rw [hsq] at hl2
          simp at hl2
    · intro _
      rfl
    · intro hcontra
      exact absurd hnone hcontra

/-- `List.getD` after `set` at the same index. -/
theorem getD_set_self (l : List α) (i : Nat) (a d : α) (h : i < l.length) :
    (l.set i a).getD i d = a := by
  rw [List.getD_eq_getElem?_getD, List.getElem?_set_self h]
  rfl

/-- `List.getD` after `set` at a different index. -/
theorem getD_set_ne (l : List α) (i j : Nat) (a d : α) (h : i ≠ j) :
    (l.set i a).getD j d = l.getD j d := by
  rw [List.getD_eq_getElem?_getD, List.getD_eq_getElem?_getD, List.getElem?_set_ne h]

/-- `List.getD` of a `take` below the cut. -/
theorem getD_take_of_lt (l : List α) (m n : Nat) (d : α) (h : m < n) :
    (l.take n).getD m d = l.getD m d := by
  rw [List.getD_eq_getElem?_getD, List.getD_eq_getElem?_getD, List.getElem?_take_of_lt h]

/-- `InnerNode48.lookup_child` written as a single conditional. -/
theorem n48_lookup_eq (n : InnerNode48 V) (b : Nat) :
    InnerNode48.lookup_child n b =
      if n.child_indices.getD b 48 = 48 then none
      else (n.child_pointers.take n.header.num_children).getD
        (n.child_indices.getD b 48) none := by
  by_cases hc : n.child_indices.getD b 48 = 48
  · simp [InnerNode48.lookup_child, InnerNode48.initialized_child_pointers, hc]
  · simp [InnerNode48.lookup_child, InnerNode48.initialized_child_pointers, hc]

/-- Full functional specification of `write_child` on a non-full, invariant-
satisfying `InnerNode48`. -/
theorem n48_write_child_spec (n : InnerNode48 V) (b : Nat) (p : V)
    (hwf : InnerNode48.wf n) (hnf : n.header.num_children < 48) (hb : b < 256) :
    ∃ n2, InnerNode48.write_child n b p = some n2 ∧
      InnerNode48.lookup_child n2 b = some p ∧
      (∀ b2, b2 < 256 → b2 ≠ b →
        InnerNode48.lookup_child n2 b2 = InnerNode48.lookup_child n b2) ∧
      (InnerNode48.lookup_child n b = none →
        n2.header.num_children = n.header.num_children + 1) ∧
      (InnerNode48.lookup_child n b ≠ none →
        n2.header.num_children = n.header.num_children) := by
  obtain ⟨hcil, hcpl, hcap, hidx, hinit, hinj⟩ := hwf
  by_cases hemp : n.child_indices.getD b 48 = 48
  · -- the byte was absent: a fresh slot is claimed
    have hwrite : InnerNode48.write_child n b p =
        some ⟨⟨n.header.num_children + 1, n.header.pfx⟩,
              n.child_indices.set b n.header.num_children,
              n.child_pointers.set n.header.num_children (some p)⟩ := by
      simp only [InnerNode48.write_child, if_pos hemp, if_pos hnf]
    have hlooknone : InnerNode48.lookup_child n b = none := by
      rw [n48_lookup_eq, if_pos hemp]
    have h1 : (n.child_indices.set b n.header.num_children).getD b 48 =
        n.header.num_children :=
      getD_set_self _ _ _ _ (by rw [hcil]; exact hb)
    refine ⟨_, hwrite, ?_, ?_, ?_, ?_⟩
    · simp only [n48_lookup_eq, h1]
      rw [if_neg (by omega : ¬ n.header.num_children = 48)]
      show ((n.child_pointers.set n.header.num_children (some p)).take
          (n.header.num_children + 1)).getD n.header.num_children none = some p
      rw [getD_take_of_lt _ _ _ _ (by omega),
        getD_set_self _ _ _ _ (by rw [hcpl]; omega)]
    · intro b2 hb2 hb2b
      have h2 : (n.child_indices.set b n.header.num_children).getD b2 48 =
          n.child_indices.getD b2 48 :=
        getD_set_ne _ _ _ _ _ (fun h => hb2b h.symm)
      simp only [n48_lookup_eq, h2]
      by_cases hi2 : n.child_indices.getD b2 48 = 48
      · rw [if_pos hi2, if_pos hi2]
      · rw [if_neg hi2, if_neg hi2]
        have hlt : n.child_indices.getD b2 48 < n.header.num_children := hidx b2 hb2 hi2
        show ((n.child_pointers.set n.header.num_children (some p)).take
            (n.header.num_children + 1)).getD (n.child_indices.getD b2 48) none =
          (n.child_pointers.take n.header.num_children).getD
            (n.child_indices.getD b2 48) none
        rw [getD_take_of_lt _ _ _ _ (by omega), getD_take_of_lt _ _ _ _ (by omega),
          getD_set_ne _ _ _ _ _ (by omega : n.header.num_children ≠ n.child_indices.getD b2 48)]
    · intro _
      rfl
    · intro hcontra
      exact absurd hlooknone hcontra
  · -- the byte was present: overwrite its slot
    have hwrite : InnerNode48.write_child n b p =
        some ⟨n.header, n.child_indices,
              n.child_pointers.set (n.child_indices.getD b 48) (some p)⟩ := by
      simp only [InnerNode48.write_child, if_neg hemp]
    have hlt : n.child_indices.getD b 48 < n.header.num_children := hidx b hb hemp
    have hlooksome : InnerNode48.lookup_child n b ≠ none := by
      rw [n48_lookup_eq, if_neg hemp, getD_take_of_lt _ _ _ _ hlt]
      have hs := hinit (n.child_indices.getD b 48) hlt
      rw [Option.isSome_iff_exists] at hs
      obtain ⟨v, hv⟩ := hs
      rw [hv]
      simp
    refine ⟨_, hwrite, ?_, ?_, ?_, ?_⟩
    · simp only [n48_lookup_eq]
      rw [if_neg hemp]
      show ((n.child_pointers.set (n.child_indices.getD b 48) (some p)).take
          n.header.num_children).getD (n.child_indices.getD b 48) none = some p
      rw [getD_take_of_lt _ _ _ _ hlt,
        getD_set_self _ _ _ _ (by rw [hcpl]; omega)]
    · intro b2 hb2 hb2b
      simp only [n48_lookup_eq]
      by_cases hi2 : n.child_indices.getD b2 48 = 48
      · rw [if_pos hi2, if_pos hi2]
      · rw [if_neg hi2, if_neg hi2]
        have hlt2 : n.child_indices.getD b2 48 < n.header.num_children := hidx b2 hb2 hi2
        have hne : n.child_indices.getD b 48 ≠ n.child_indices.getD b2 48 :=
          hinj b hb b2 hb2 (fun h => hb2b h.symm) hemp hi2
        show ((n.child_pointers.set (n.child_indices.getD b 48) (some p)).take
            n.header.num_children).getD (n.child_indices.getD b2 48) none =
          (n.child_pointers.take n.header.num_children).getD
            (n.child_indices.getD b2 48) none
        rw [getD_take_of_lt _ _ _ _ hlt2, getD_take_of_lt _ _ _ _ hlt2,
          getD_set_ne _ _ _ _ _ hne]
    · intro hcontra
      exact absurd hcontra hlooksome
    · intro _
      rfl

/-- The `num_children` update of `InnerNode256::write_child`, phrased through
`lookup_child` (the `existing_pointer` the source reads is exactly the
lookup). -/
theorem n256_write_child_num_children (n : InnerNode256 V) (b : Nat) (p : V) :
    (InnerNode256.write_child n b p).header.num_children =
      if (InnerNode256.lookup_child n b).isNone then n.header.num_children + 1
      else n.header.num_children :=
  rfl

/-- Full functional specification of `write_child` on an `InnerNode256`
(needing only the array length and the byte range, not fullness). -/
theorem n256_write_child_spec (n : InnerNode256 V) (b : Nat) (p : V)
    (hlen : n.child_pointers.length = 256) (hb : b < 256) :
    InnerNode256.lookup_child (InnerNode256.write_child n b p) b = some p ∧
    (∀ b2, b2 ≠ b →
      InnerNode256.lookup_child (InnerNode256.write_child n b p) b2 =
        InnerNode256.lookup_child n b2) ∧
    (InnerNode256.lookup_child n b = none →
      (InnerNode256.write_child n b p).header.num_children = n.header.num_children + 1) ∧
    (InnerNode256.lookup_child n b ≠ none →
      (InnerNode256.write_child n b p).header.num_children = n.header.num_children) := by
  refine ⟨?_, ?_, ?_, ?_⟩
  · show (n.child_pointers.set b (some p)).getD b none = some p
    rw [List.getD_eq_getElem?_getD, List.getElem?_set_self (by rw [hlen]; exact hb)]
    rfl
  · intro b2 hb2
    show (n.child_pointers.set b (some p)).getD b2 none = n.child_pointers.getD b2 none
    rw [List.getD_eq_getElem?_getD, List.getD_eq_getElem?_getD,
      List.getElem?_set_ne (fun h => hb2 h.symm)]
  · intro hnone
    rw [n256_write_child_num_children, hnone]
    rfl
  · intro hsome
    rw [n256_write_child_num_children]
    cases hcase : InnerNode256.lookup_child n b with
    | none => exact absurd hcase hsome
    | some q => simp

/-- `List.getD` of a `replicate` with the element as default. -/
theorem getD_replicate_self (m : Nat) (a : α) (i : Nat) :
    (List.replicate m a).getD i a = a := by
  rw [List.getD_eq_getElem?_getD, List.getElem?_replicate]
  by_cases h : i < m <;> simp [h]

/-- The empty `InnerNode48` satisfies the class invariants. -/
theorem wf48_empty : InnerNode48.wf (InnerNode48.empty Nat) := by
  refine ⟨List.length_replicate 256 48, List.length_replicate 48 none, ?_, ?_, ?_, ?_⟩
  · show (0 : Nat) ≤ 48
    omega
  · intro b _ hne
    exact absurd (getD_replicate_self 256 48 b) hne
  · intro i hi
    exact absurd hi (Nat.not_lt_zero i)
  · intro b1 _ b2 _ _ h1 _
    exact absurd (getD_replicate_self 256 48 b1) h1

/-- The empty `InnerNode256` satisfies the class invariants. -/
theorem wf256_empty : InnerNode256.wf (InnerNode256.empty Nat) :=
  ⟨List.length_replicate 256 none, Nat.zero_le 256⟩

/-! ### Helper lemmas about `grow` -/

/-- Under the length invariants, `InnerNode4::grow` copies the node verbatim
(into the larger class, which has the same model shape). -/
theorem grow4_eq_self (n : SeqNode V)
    (hkl : n.keys.length = n.header.num_children)
    (hpl : n.child_pointers.length = n.header.num_children) :
    InnerNode4.grow n = n := by
  cases n with
  | mk h ks cp =>
    simp only at hkl hpl
    simp only [InnerNode4.grow]
    rw [List.take_of_length_le (le_of_eq hkl), List.take_of_length_le (le_of_eq hpl)]

theorem buildChildIndices_length (keys : List Nat) (start : Nat) (acc : List Nat) :
    (buildChildIndices start keys acc).length = acc.length := by
  induction keys generalizing start acc with
  | nil => rfl
  | cons k ks ih =>
    simp only [buildChildIndices]
    rw [ih, List.length_set]

theorem buildChildIndices_getD_not_mem (keys : List Nat) (start : Nat) (acc : List Nat)
    (b : Nat) (hb : b ∉ keys) :
    (buildChildIndices start keys acc).getD b 48 = acc.getD b 48 := by
  induction keys generalizing start acc with
  | nil => rfl
  | cons k ks ih =>
    simp only [List.mem_cons, not_or] at hb
    simp only [buildChildIndices]
    rw [ih _ _ hb.2, getD_set_ne _ _ _ _ _ (fun h => hb.1 h.symm)]

theorem buildChildIndices_getD_mem (keys : List Nat) (start : Nat) (acc : List Nat)
    (b j : Nat) (hnd : keys.Nodup) (hlen : ∀ k ∈ keys, k < acc.length)
    (hfi : keys.findIdx? (fun k => k = b) = some j) :
    (buildChildIndices start keys acc).getD b 48 = start + j := by
  induction keys generalizing start acc j with
  | nil => simp [List.findIdx?_nil] at hfi
  | cons k ks ih =>
    by_cases hkb : k = b
    · subst hkb
      have hj0 : j = 0 := by
        rw [List.findIdx?_cons, if_pos (by simp)] at hfi
        simpa using hfi.symm
      subst hj0
      have hknotin : k ∉ ks := (List.nodup_cons.mp hnd).1
      simp only [buildChildIndices]
      rw [buildChildIndices_getD_not_mem _ _ _ _ hknotin,
        getD_set_self _ _ _ _ (hlen k (List.mem_cons_self k ks))]
      omega
    · rw [List.findIdx?_cons, if_neg (by simp [hkb]), List.findIdx?_succ] at hfi
      cases hj2 : ks.findIdx? (fun x => x = b) with
      | none => rw [hj2] at hfi; simp at hfi
      | some j2 =>
        rw [hj2] at hfi
        simp at hfi
        simp only [buildChildIndices]
        rw [ih (start + 1) (acc.set k start) j2 (List.nodup_cons.mp hnd).2
          (by intro x hx; rw [List.length_set]; exact hlen x (List.mem_cons_of_mem k hx)) hj2]
        omega

/-- `InnerNode16::grow` preserves the byte-to-child mapping. -/
theorem grow16_lookup (n : SeqNode V) (hwf : SeqNode.wf 16 n) (b : Nat) (hb : b < 256) :
    InnerNode48.lookup_child (InnerNode16.grow n) b = SeqNode.lookup_child n b := by
  obtain ⟨hkl, hpl, hcap, hsorted, hbytes⟩ := hwf
  have htk : n.keys.take n.header.num_children = n.keys :=
    List.take_of_length_le (le_of_eq hkl)
  have htp : n.child_pointers.take n.header.num_children = n.child_pointers :=
    List.take_of_length_le (le_of_eq hpl)
  rw [n48_lookup_eq]
  simp only [InnerNode16.grow, htk, htp]
  by_cases hmem : b ∈ n.keys
  · obtain ⟨j, hfj⟩ : ∃ j, n.keys.findIdx? (fun key => key = b) = some j := by
      cases hf : n.keys.findIdx? (fun key => key = b) with
      | some j => exact ⟨j, rfl⟩
      | none =>
        rw [List.findIdx?_eq_none_iff] at hf
        have := hf b hmem
        simp at this
    have hgd : (buildChildIndices 0 n.keys (List.replicate 256 48)).getD b 48 = j := by
      have hgm := buildChildIndices_getD_mem n.keys 0 (List.replicate 256 48) b j
        hsorted.nodup (by intro k hk; rw [List.length_replicate]; exact hbytes k hk) hfj
      rw [Nat.zero_add] at hgm
      exact hgm
    obtain ⟨hjlt, hpj, -⟩ := List.findIdx?_eq_some_iff_getElem.mp hfj
    have hjnc : j < n.header.num_children := by omega
    rw [hgd, if_neg (by omega : ¬ j = 48), getD_take_of_lt _ _ _ _ hjnc,
      List.getD_eq_getElem?_getD,
      List.getElem?_append_left (by rw [List.length_map]; omega),
      List.getElem?_map, List.getElem?_eq_getElem (by omega : j < n.child_pointers.length)]
    simp only [SeqNode.lookup_child, SeqNode.lookup_child_index, hfj, Option.some_bind]
    rw [List.getElem?_eq_getElem (by omega : j < n.child_pointers.length)]
    rfl
  · have hgd : (buildChildIndices 0 n.keys (List.replicate 256 48)).getD b 48 = 48 := by
      rw [buildChildIndices_getD_not_mem _ _ _ _ hmem, getD_replicate_self]
    rw [hgd, if_pos rfl]
    exact ((seq_lookup_eq_none_iff n b (by omega)).mpr hmem).symm

/-- `InnerNode48::grow` preserves the byte-to-child mapping. -/
theorem grow48_lookup (n : InnerNode48 V) (b : Nat) (hb : b < 256) :
    InnerNode256.lookup_child (InnerNode48.grow n) b = InnerNode48.lookup_child n b := by
  have hmap : (InnerNode48.grow n).child_pointers.getD b none =
      (if n.child_indices.getD b 48 ≠ 48 then
        (InnerNode48.initialized_child_pointers n).getD (n.child_indices.getD b 48) none
      else none) := by
    simp only [InnerNode48.grow]
    rw [List.getD_eq_getElem?_getD, List.getElem?_map, List.getElem?_range hb]
    rfl
  show (InnerNode48.grow n).child_pointers.getD b none = _
  rw [hmap, n48_lookup_eq]
  by_cases hc : n.child_indices.getD b 48 = 48
  · rw [if_neg (not_not_intro hc), if_pos hc]
  · rw [if_pos hc, if_neg hc]
    rfl

/-! ### Claim theorems: header and support types -/

/-- Claim C3 (code bug, failing input): the source `is_full` comparator is
reversed (`upper_capacity() >= num_children()`), so an *empty* `Node4`
header — `num_children = 0`, which is not the class capacity 4 — already
reports `is_full() == true`, contradicting both the claim and the method's
own documentation ("no more space to store children"). -/
theorem C3_is_full_reversed :
    InnerNode.is_full NodeType.Node4 Header.empty = true ∧
    Header.empty.num_children ≠ NodeType.upper_capacity NodeType.Node4 ∧
    InnerNode.is_full NodeType.Node16 Header.empty = true ∧
    InnerNode.is_full NodeType.Node48 Header.empty = true ∧
    InnerNode.is_full NodeType.Node256 Header.empty = true := by
  decide

/-- Claim C4 (code bug, failing input): `write_prefix` is
`self.prefix.extend(..)` on a `SmallVec`, which appends without ever
truncating; writing 9 bytes to an empty header stores and returns all 9
bytes, although the claim (and the source doc comment) says `read_prefix()`
returns at most `NUM_PREFIX_BYTES = 8` bytes. -/
theorem C4_writePfx_does_not_truncate :
    (Header.writePfx Header.empty [1, 2, 3, 4, 5, 6, 7, 8, 9]).readPfx =
      [1, 2, 3, 4, 5, 6, 7, 8, 9] ∧
    (Header.writePfx Header.empty [1, 2, 3, 4, 5, 6, 7, 8, 9]).pfxSize = 9 ∧
    NUM_PREFIX_BYTES < 9 := by
  decide

/-- Claim C5 (code bug, failing input): on the full `InnerNode4` with keys
`[1,2,3,5]`, `write_child(4, _)` does *not* panic: the binary search yields
insertion point 3, which passes `assert!(3 < 4)` and skips the shift because
`3 == keys.len() - 1`, so slot 3 is silently overwritten (losing key 5 and
its child) and `num_children` is bumped to 5 — contradicting the documented
"Panics when the node is full".  (The other half of the claim is true:
`InnerNode256::grow` always panics, shown here at a concrete node.) -/
theorem C5_write_child_full_does_not_panic :
    SeqNode.wf 4 (⟨⟨4, []⟩, [1, 2, 3, 5], [10, 20, 30, 50]⟩ : SeqNode Nat) ∧
    SeqNode.write_child 4 (⟨⟨4, []⟩, [1, 2, 3, 5], [10, 20, 30, 50]⟩ : SeqNode Nat) 4 99 =
      some ⟨⟨5, []⟩, [1, 2, 3, 4], [10, 20, 30, 99]⟩ ∧
    InnerNode256.grow (InnerNode256.empty Nat) = none := by
  refine ⟨?_, by decide, rfl⟩
  refine ⟨rfl, rfl, by decide, by decide, by decide⟩

/-- Claim C9: `RestrictedNodeIndex::<LIMIT>::try_from(v)` succeeds with
stored value `v` exactly when `v < LIMIT`, fails otherwise with an error
carrying the limit and the offending value, and a successful result is never
the `EMPTY` sentinel (whose stored value is `LIMIT`). -/
theorem C9_tryFrom_spec :
    ∀ (LIMIT v : Nat),
      (RestrictedNodeIndex.tryFrom LIMIT v = Except.ok ⟨v⟩ ↔ v < LIMIT) ∧
      (LIMIT ≤ v → RestrictedNodeIndex.tryFrom LIMIT v = Except.error ⟨LIMIT, v⟩) ∧
      (∀ r, RestrictedNodeIndex.tryFrom LIMIT v = Except.ok r →
        r.value = v ∧ r ≠ RestrictedNodeIndex.EMPTY LIMIT) ∧
      (RestrictedNodeIndex.EMPTY LIMIT).value = LIMIT := by
  intro LIMIT v
  refine ⟨?_, ?_, ?_, rfl⟩
  · constructor
    · intro h
      by_contra hv
      simp [RestrictedNodeIndex.tryFrom, hv] at h
    · intro hv
      simp [RestrictedNodeIndex.tryFrom, hv]
  · intro hv
    simp [RestrictedNodeIndex.tryFrom, Nat.not_lt.mpr hv]
  · intro r hr
    by_cases hv : v < LIMIT
    · simp only [RestrictedNodeIndex.tryFrom, if_pos hv, Except.ok.injEq] at hr
      subst hr
      refine ⟨rfl, ?_⟩
      intro hemp
      rw [RestrictedNodeIndex.EMPTY, RestrictedNodeIndex.mk.injEq] at hemp
      omega
    · simp [RestrictedNodeIndex.tryFrom, hv] at hr

/-- Witness for C9 at `LIMIT = 48`: `try_from 3` succeeds and `try_from 50`
fails with the limit and the offending value. -/
theorem C9_tryFrom_spec_witness :
    RestrictedNodeIndex.tryFrom 48 3 = Except.ok ⟨3⟩ ∧
    RestrictedNodeIndex.tryFrom 48 50 = Except.error ⟨48, 50⟩ :=
  ⟨(C9_tryFrom_spec 48 3).1.mpr (by decide), (C9_tryFrom_spec 48 50).2.1 (by decide)⟩

/-- Claim C10: `InnerNode256::write_child` is total — it is modeled as a
plain function (no `Option`, no panic path exists in the source: the only
indexing uses a `u8` against a 256-slot array).  On an empty slot it stores
the child and bumps `num_children`; on an occupied slot it overwrites and
leaves `num_children` unchanged; other slots are untouched.  No "not full"
hypothesis appears: even a node with 256 children accepts every write. -/
theorem C10_n256_write_child_total :
    ∀ (V : Type) (n : InnerNode256 V) (b : Nat) (p : V),
      InnerNode256.wf n → b < 256 →
      InnerNode256.lookup_child (InnerNode256.write_child n b p) b = some p ∧
      (InnerNode256.lookup_child n b = none →
        (InnerNode256.write_child n b p).header.num_children = n.header.num_children + 1) ∧
      (InnerNode256.lookup_child n b ≠ none →
        (InnerNode256.write_child n b p).header.num_children = n.header.num_children) ∧
      (∀ b2, b2 ≠ b →
        InnerNode256.lookup_child (InnerNode256.write_child n b p) b2 =
          InnerNode256.lookup_child n b2) := by
  intro V n b p hwf hb
  obtain ⟨hlen, -⟩ := hwf
  refine ⟨?_, ?_, ?_, ?_⟩
  · show (n.child_pointers.set b (some p)).getD b none = some p
    rw [List.getD_eq_getElem?_getD, List.getElem?_set_self (by rw [hlen]; exact hb)]
    rfl
  · intro hnone
    rw [n256_write_child_num_children, hnone]
    rfl
  · intro hsome
    rw [n256_write_child_num_children]
    cases hcase : InnerNode256.lookup_child n b with
    | none => exact absurd hcase hsome
    | some q => simp
  · intro b2 hb2
    show (n.child_pointers.set b (some p)).getD b2 none = n.child_pointers.getD b2 none
    rw [List.getD_eq_getElem?_getD, List.getD_eq_getElem?_getD,
      List.getElem?_set_ne (fun h => hb2 h.symm)]

/-- Witness for C10: write child `90` at byte `9` into the empty
`InnerNode256`. -/
theorem C10_n256_write_child_total_witness :
    InnerNode256.lookup_child
      (InnerNode256.write_child (InnerNode256.empty Nat) 9 90) 9 = some 90 ∧
    (InnerNode256.lookup_child (InnerNode256.empty Nat) 9 = none →
      (InnerNode256.write_child (InnerNode256.empty Nat) 9 90).header.num_children =
        (InnerNode256.empty Nat).header.num_children + 1) := by
  have hwf : InnerNode256.wf (InnerNode256.empty Nat) := by
    constructor
    · show (List.replicate 256 (none : Option Nat)).length = 256
      exact List.length_replicate 256 none
    · show (0 : Nat) ≤ 256
      omega
  have h := C10_n256_write_child_total Nat (InnerNode256.empty Nat) 9 90 hwf (by decide)
  exact ⟨h.1, h.2.1⟩

/-- Claim C8: `Header::match_prefix(candidate)` returns the largest
`m ≤ min(prefix_size, |candidate|)` on which the stored prefix and the
candidate agree bytewise: the result is within that bound, the two sequences
agree on the first `result` bytes, and any `m` within the bound on which
they agree satisfies `m ≤ result`. -/
theorem C8_matchPfx_spec :
    ∀ (h : Header) (c : List Nat),
      Header.matchPfx h c ≤ min (Header.pfxSize h) c.length ∧
      (Header.readPfx h).take (Header.matchPfx h c) = c.take (Header.matchPfx h c) ∧
      ∀ m, m ≤ min (Header.pfxSize h) c.length →
        (Header.readPfx h).take m = c.take m → m ≤ Header.matchPfx h c := by
  intro h c
  exact ⟨matchPfxGo_le_min h.pfx c, matchPfxGo_take h.pfx c,
    fun m hm hagree => matchPfxGo_maximal h.pfx c m hm hagree⟩

/-- Witness for C8: on prefix `[1,2,9]` and candidate `[1,2,3]` the
maximality part forces at least 2 matching bytes. -/
theorem C8_matchPfx_spec_witness :
    2 ≤ Header.matchPfx ⟨0, [1, 2, 9]⟩ [1, 2, 3] :=
  (C8_matchPfx_spec ⟨0, [1, 2, 9]⟩ [1, 2, 3]).2.2 2 (by decide) (by decide)

/-- In a pair list whose first components are strictly ascending, the head
has the least first component. -/
theorem pairs_head_min (L : List (Nat × α)) (pr : Nat × α)
    (hs : List.Sorted (· < ·) (L.map Prod.fst)) (hh : L.head? = some pr) :
    ∀ qr ∈ L, pr.1 ≤ qr.1 := by
  cases L with
  | nil => simp at hh
  | cons x rest =>
    simp only [List.head?_cons, Option.some.injEq] at hh
    subst hh
    intro qr hq
    rcases List.mem_cons.mp hq with rfl | hq2
    · exact le_refl _
    · have hlt : x.1 < qr.1 := by
        rw [List.map_cons, List.sorted_cons] at hs
        exact hs.1 qr.1 (List.mem_map_of_mem Prod.fst hq2)
      omega

/-- In a pair list whose first components are strictly ascending, the last
element has the greatest first component. -/
theorem pairs_getLast_max (L : List (Nat × α)) (pr : Nat × α)
    (hs : List.Sorted (· < ·) (L.map Prod.fst)) (hh : L.getLast? = some pr) :
    ∀ qr ∈ L, qr.1 ≤ pr.1 := by
  obtain ⟨ys, rfl⟩ := List.getLast?_eq_some_iff.mp hh
  rw [List.map_append, List.Sorted, List.pairwise_append] at hs
  intro qr hq
  rcases List.mem_append.mp hq with hq2 | hq2
  · have : qr.1 < pr.1 :=
      hs.2.2 qr.1 (List.mem_map_of_mem Prod.fst hq2) pr.1 (by simp)
    omega
  · simp only [List.mem_singleton] at hq2
    subst hq2
    exact le_refl _

/-- A `filterMap` whose function only ever emits its input as first
component produces a first-component list that is a sublist of the input. -/
theorem filterMap_fst_sublist (f : Nat → Option (Nat × α)) (l : List Nat)
    (hf : ∀ a x, f a = some x → x.1 = a) :
    ((l.filterMap f).map Prod.fst).Sublist l := by
  induction l with
  | nil => simp
  | cons a l ih =>
    rw [List.filterMap_cons]
    cases hfa : f a with
    | none => exact ih.cons a
    | some x =>
      rw [List.map_cons, hf a x hfa]
      exact ih.cons₂ a

/-- `InnerNode48::iter` yields, at each byte of the range, exactly the
lookup result paired with the byte. -/
theorem iter48_eq_map_lookup (n : InnerNode48 V) :
    InnerNode48.iter n = (List.range 256).filterMap
      (fun b => (InnerNode48.lookup_child n b).map (fun p => (b, p))) := by
  simp only [InnerNode48.iter]
  apply List.filterMap_congr
  intro b _
  by_cases hc : n.child_indices.getD b 48 = 48
  · rw [n48_lookup_eq, if_pos hc]
    show (if n.child_indices.getD b 48 ≠ 48 then
        ((InnerNode48.initialized_child_pointers n).getD (n.child_indices.getD b 48) none).map
          (fun child_pointer => (b, child_pointer))
      else none) = Option.map (fun p => (b, p)) none
    rw [if_neg (not_not_intro hc)]
    rfl
  · rw [n48_lookup_eq, if_neg hc]
    show (if n.child_indices.getD b 48 ≠ 48 then
        ((InnerNode48.initialized_child_pointers n).getD (n.child_indices.getD b 48) none).map
          (fun child_pointer => (b, child_pointer))
      else none) = _
    rw [if_pos hc]
    rfl

/-- Membership in `InnerNode48::iter` is exactly a successful lookup. -/
theorem iter48_mem (n : InnerNode48 V) (b : Nat) (p : V) :
    (b, p) ∈ InnerNode48.iter n ↔ b < 256 ∧ InnerNode48.lookup_child n b = some p := by
  rw [iter48_eq_map_lookup, List.mem_filterMap]
  constructor
  · rintro ⟨a, ha, hfa⟩
    rw [Option.map_eq_some'] at hfa
    obtain ⟨v, hv, hpair⟩ := hfa
    obtain ⟨rfl, rfl⟩ := Prod.mk.injEq .. ▸ hpair
    exact ⟨List.mem_range.mp ha, hv⟩
  · rintro ⟨hb, hl⟩
    exact ⟨b, List.mem_range.mpr hb, by rw [hl]; rfl⟩

/-- The first components of `InnerNode48::iter` are strictly ascending. -/
theorem iter48_fst_sorted (n : InnerNode48 V) :
    List.Sorted (· < ·) ((InnerNode48.iter n).map Prod.fst) := by
  apply List.Pairwise.sublist ?_ (List.sorted_lt_range 256)
  rw [iter48_eq_map_lookup]
  apply filterMap_fst_sublist
  intro a x hx
  rw [Option.map_eq_some'] at hx
  obtain ⟨v, -, hpair⟩ := hx
  rw [← hpair]

/-- Membership in `InnerNode256::iter` is exactly a successful lookup. -/
theorem iter256_mem (n : InnerNode256 V) (b : Nat) (p : V) :
    (b, p) ∈ InnerNode256.iter n ↔ b < 256 ∧ InnerNode256.lookup_child n b = some p := by
  rw [InnerNode256.iter, List.mem_filterMap]
  constructor
  · rintro ⟨a, ha, hfa⟩
    rw [Option.map_eq_some'] at hfa
    obtain ⟨v, hv, hpair⟩ := hfa
    obtain ⟨rfl, rfl⟩ := Prod.mk.injEq .. ▸ hpair
    exact ⟨List.mem_range.mp ha, hv⟩
  · rintro ⟨hb, hl⟩
    exact ⟨b, List.mem_range.mpr hb, by rw [show n.child_pointers.getD b none = some p from hl]; rfl⟩

/-- The first components of `InnerNode256::iter` are strictly ascending. -/
theorem iter256_fst_sorted (n : InnerNode256 V) :
    List.Sorted (· < ·) ((InnerNode256.iter n).map Prod.fst) := by
  apply List.Pairwise.sublist ?_ (List.sorted_lt_range 256)
  rw [InnerNode256.iter]
  apply filterMap_fst_sublist
  intro a x hx
  rw [Option.map_eq_some'] at hx
  obtain ⟨v, -, hpair⟩ := hx
  rw [← hpair]

/-- Generic first/last characterization for a pair list with the membership
characterization, byte bounds, and ascending first components. -/
theorem iter_first_last_spec (L : List (Nat × V)) (lookup : Nat → Option V)
    (hmem : ∀ b, b < 256 → ∀ p, ((b, p) ∈ L ↔ lookup b = some p))
    (hbnd : ∀ pr ∈ L, pr.1 < 256)
    (hsort : List.Sorted (· < ·) (L.map Prod.fst)) :
    (L.head?.map Prod.snd = none ↔ ∀ b, b < 256 → lookup b = none) ∧
    (∀ p, L.head?.map Prod.snd = some p →
      ∃ b, b < 256 ∧ lookup b = some p ∧
        ∀ b2, b2 < 256 → ∀ p2, lookup b2 = some p2 → b ≤ b2) ∧
    (L.getLast?.map Prod.snd = none ↔ ∀ b, b < 256 → lookup b = none) ∧
    (∀ p, L.getLast?.map Prod.snd = some p →
      ∃ b, b < 256 ∧ lookup b = some p ∧
        ∀ b2, b2 < 256 → ∀ p2, lookup b2 = some p2 → b2 ≤ b) := by
  have hempty : L = [] ↔ ∀ b, b < 256 → lookup b = none := by
    constructor
    · rintro rfl b hb
      cases hl : lookup b with
      | none => rfl
      | some p => exact absurd ((hmem b hb p).mpr hl) (by simp)
    · intro hall
      rw [List.eq_nil_iff_forall_not_mem]
      rintro ⟨b, p⟩ hpr
      have hb := hbnd _ hpr
      have hsome := (hmem b hb p).mp hpr
      rw [hall b hb] at hsome
      cases hsome
  refine ⟨?_, ?_, ?_, ?_⟩
  · rw [Option.map_eq_none', List.head?_eq_none_iff]
    exact hempty
  · intro p hp
    rw [Option.map_eq_some'] at hp
    obtain ⟨pr, hh, hsnd⟩ := hp
    have hprmem : pr ∈ L := List.mem_of_mem_head? hh
    have hb := hbnd _ hprmem
    refine ⟨pr.1, hb, ?_, ?_⟩
    · rw [← hsnd]
      exact (hmem pr.1 hb pr.2).mp hprmem
    · intro b2 hb2 p2 hl2
      exact pairs_head_min L pr hsort hh (b2, p2) ((hmem b2 hb2 p2).mpr hl2)
  · rw [Option.map_eq_none', List.getLast?_eq_none_iff]
    exact hempty
  · intro p hp
    rw [Option.map_eq_some'] at hp
    obtain ⟨pr, hh, hsnd⟩ := hp
    have hprmem : pr ∈ L := List.mem_of_mem_getLast? hh
    have hb := hbnd _ hprmem
    refine ⟨pr.1, hb, ?_, ?_⟩
    · rw [← hsnd]
      exact (hmem pr.1 hb pr.2).mp hprmem
    · intro b2 hb2 p2 hl2
      exact pairs_getLast_max L pr hsort hh (b2, p2) ((hmem b2 hb2 p2).mpr hl2)

/-- `write_child` on a non-full node keeps the initialized keys strictly
ascending (generic in the capacity). -/
theorem write_child_keeps_sorted (CAP : Nat) (n : SeqNode V) (b : Nat) (p : V)
    (n2 : SeqNode V) (hwf : SeqNode.wf CAP n) (hnf : n.header.num_children < CAP)
    (hw : SeqNode.write_child CAP n b p = some n2) :
    List.Sorted (· < ·) n2.keys := by
  obtain ⟨hkl, hpl, hcap, hsorted, hbytes⟩ := hwf
  cases hbs : binarySearch n.keys b with
  | ok i =>
    simp only [SeqNode.write_child, hbs, Option.some.injEq] at hw
    subst hw
    exact hsorted
  | error i =>
    rw [write_child_err_eq CAP n b p i hkl hpl hnf hbs, Option.some.injEq] at hw
    subst hw
    exact sorted_insert_sorted _ _ _ hsorted
      (binarySearch_err_spec _ _ _ hbs).2.1
      (binarySearch_err_drop _ _ _ hsorted hbs)

/-- Claim C7: the key-byte ordering invariant (I3) is preserved — after
`write_child` on a non-full `InnerNode4` or `InnerNode16` whose initialized
keys are strictly ascending, the keys are still strictly ascending, and so
are the keys of the node produced by `InnerNode4::grow`. -/
theorem C7_sorted_preserved :
    (∀ (V : Type) (n : SeqNode V) (b : Nat) (p : V) (n2 : SeqNode V),
      SeqNode.wf 4 n → n.header.num_children < 4 →
      SeqNode.write_child 4 n b p = some n2 → List.Sorted (· < ·) n2.keys) ∧
    (∀ (V : Type) (n : SeqNode V) (b : Nat) (p : V) (n2 : SeqNode V),
      SeqNode.wf 16 n → n.header.num_children < 16 →
      SeqNode.write_child 16 n b p = some n2 → List.Sorted (· < ·) n2.keys) ∧
    (∀ (V : Type) (n : SeqNode V), SeqNode.wf 4 n →
      List.Sorted (· < ·) (InnerNode4.grow n).keys) := by
  refine ⟨?_, ?_, ?_⟩
  · intro V n b p n2 hwf hnf hw
    exact write_child_keeps_sorted 4 n b p n2 hwf hnf hw
  · intro V n b p n2 hwf hnf hw
    exact write_child_keeps_sorted 16 n b p n2 hwf hnf hw
  · intro V n hwf
    exact List.Pairwise.sublist (List.take_sublist _ _) hwf.2.2.2.1

/-- Witness for C7: insert byte 3 into a node holding only byte 5. -/
theorem C7_sorted_preserved_witness :
    List.Sorted (· < ·) (⟨⟨2, []⟩, [3, 5], [7, 50]⟩ : SeqNode Nat).keys :=
  C7_sorted_preserved.1 Nat ⟨⟨1, []⟩, [5], [50]⟩ 3 7 ⟨⟨2, []⟩, [3, 5], [7, 50]⟩
    ⟨rfl, rfl, by decide, by decide, by decide⟩ (by decide) (by decide)

/-- Claim C1: on every inner-node class, `write_child(b, p)` on a node that
satisfies its class invariants and is not full succeeds without panicking;
afterwards `lookup_child(b)` returns `Some(p)`, every other byte's lookup is
unchanged, and `num_children` grows by exactly one when `b` was absent and
stays unchanged when `b` was present (overwrite).  The three conjuncts cover
`InnerNode4`/`InnerNode16` (sequential model with `CAP ∈ {4, 16}`),
`InnerNode48`, and `InnerNode256`. -/
theorem C1_write_child_spec :
    (∀ (V : Type) (CAP : Nat) (n : SeqNode V) (b : Nat) (p : V),
      (CAP = 4 ∨ CAP = 16) → SeqNode.wf CAP n → n.header.num_children < CAP →
      ∃ n2, SeqNode.write_child CAP n b p = some n2 ∧
        SeqNode.lookup_child n2 b = some p ∧
        (∀ b2, b2 ≠ b → SeqNode.lookup_child n2 b2 = SeqNode.lookup_child n b2) ∧
        (SeqNode.lookup_child n b = none →
          n2.header.num_children = n.header.num_children + 1) ∧
        (SeqNode.lookup_child n b ≠ none →
          n2.header.num_children = n.header.num_children)) ∧
    (∀ (V : Type) (n : InnerNode48 V) (b : Nat) (p : V),
      InnerNode48.wf n → n.header.num_children < 48 → b < 256 →
      ∃ n2, InnerNode48.write_child n b p = some n2 ∧
        InnerNode48.lookup_child n2 b = some p ∧
        (∀ b2, b2 < 256 → b2 ≠ b →
          InnerNode48.lookup_child n2 b2 = InnerNode48.lookup_child n b2) ∧
        (InnerNode48.lookup_child n b = none →
          n2.header.num_children = n.header.num_children + 1) ∧
        (InnerNode48.lookup_child n b ≠ none →
          n2.header.num_children = n.header.num_children)) ∧
    (∀ (V : Type) (n : InnerNode256 V) (b : Nat) (p : V),
      InnerNode256.wf n → n.header.num_children < 256 → b < 256 →
      InnerNode256.lookup_child (InnerNode256.write_child n b p) b = some p ∧
      (∀ b2, b2 ≠ b →
        InnerNode256.lookup_child (InnerNode256.write_child n b p) b2 =
          InnerNode256.lookup_child n b2) ∧
      (InnerNode256.lookup_child n b = none →
        (InnerNode256.write_child n b p).header.num_children = n.header.num_children + 1) ∧
      (InnerNode256.lookup_child n b ≠ none →
        (InnerNode256.write_child n b p).header.num_children = n.header.num_children)) := by
  refine ⟨?_, ?_, ?_⟩
  · intro V CAP n b p _ hwf hnf
    exact seq_write_child_spec CAP n b p hwf hnf
  · intro V n b p hwf hnf hb
    exact n48_write_child_spec n b p hwf hnf hb
  · intro V n b p hwf _ hb
    exact n256_write_child_spec n b p hwf.1 hb

/-- Witness for C1: one write into a concrete non-full node of each class. -/
theorem C1_write_child_spec_witness :
    (∃ n2, SeqNode.write_child 4 (⟨⟨1, []⟩, [5], [50]⟩ : SeqNode Nat) 3 7 = some n2 ∧
      SeqNode.lookup_child n2 3 = some 7) ∧
    (∃ n2, InnerNode48.write_child (InnerNode48.empty Nat) 7 77 = some n2 ∧
      InnerNode48.lookup_child n2 7 = some 77) ∧
    InnerNode256.lookup_child
      (InnerNode256.write_child (InnerNode256.empty Nat) 11 90) 11 = some 90 := by
  refine ⟨?_, ?_, ?_⟩
  · obtain ⟨n2, hw, hl, -, -, -⟩ := C1_write_child_spec.1 Nat 4 ⟨⟨1, []⟩, [5], [50]⟩ 3 7
      (Or.inl rfl) ⟨rfl, rfl, by decide, by decide, by decide⟩ (by decide)
    exact ⟨n2, hw, hl⟩
  · obtain ⟨n2, hw, hl, -, -, -⟩ := C1_write_child_spec.2.1 Nat (InnerNode48.empty Nat) 7 77
      wf48_empty (by decide) (by decide)
    exact ⟨n2, hw, hl⟩
  · exact (C1_write_child_spec.2.2 Nat (InnerNode256.empty Nat) 11 90
      wf256_empty (by decide) (by decide)).1

/-- Claim C2: `grow` on `InnerNode4`, `InnerNode16` and `InnerNode48`
produces a node of the next larger class with exactly the same byte-to-child
mapping and an equal header (same `num_children` and prefix). -/
theorem C2_grow_spec :
    (∀ (V : Type) (n : SeqNode V), SeqNode.wf 4 n →
      (∀ b, SeqNode.lookup_child (InnerNode4.grow n) b = SeqNode.lookup_child n b) ∧
      (InnerNode4.grow n).header = n.header) ∧
    (∀ (V : Type) (n : SeqNode V), SeqNode.wf 16 n →
      (∀ b, b < 256 →
        InnerNode48.lookup_child (InnerNode16.grow n) b = SeqNode.lookup_child n b) ∧
      (InnerNode16.grow n).header = n.header) ∧
    (∀ (V : Type) (n : InnerNode48 V), InnerNode48.wf n →
      (∀ b, b < 256 →
        InnerNode256.lookup_child (InnerNode48.grow n) b = InnerNode48.lookup_child n b) ∧
      (InnerNode48.grow n).header = n.header) := by
  refine ⟨?_, ?_, ?_⟩
  · intro V n hwf
    obtain ⟨hkl, hpl, -, -, -⟩ := hwf
    rw [grow4_eq_self n hkl hpl]
    exact ⟨fun b => rfl, rfl⟩
  · intro V n hwf
    exact ⟨fun b hb => grow16_lookup n hwf b hb, rfl⟩
  · intro V n _
    exact ⟨fun b hb => grow48_lookup n b hb, rfl⟩

/-- Witness for C2: grow a concrete node of each class and compare one
lookup. -/
theorem C2_grow_spec_witness :
    SeqNode.lookup_child (InnerNode4.grow (⟨⟨1, []⟩, [5], [50]⟩ : SeqNode Nat)) 5 =
      SeqNode.lookup_child (⟨⟨1, []⟩, [5], [50]⟩ : SeqNode Nat) 5 ∧
    InnerNode48.lookup_child (InnerNode16.grow (⟨⟨1, []⟩, [5], [50]⟩ : SeqNode Nat)) 5 =
      SeqNode.lookup_child (⟨⟨1, []⟩, [5], [50]⟩ : SeqNode Nat) 5 ∧
    InnerNode256.lookup_child (InnerNode48.grow (InnerNode48.empty Nat)) 5 =
      InnerNode48.lookup_child (InnerNode48.empty Nat) 5 :=
  ⟨(C2_grow_spec.1 Nat ⟨⟨1, []⟩, [5], [50]⟩ ⟨rfl, rfl, by decide, by decide, by decide⟩).1 5,
   (C2_grow_spec.2.1 Nat ⟨⟨1, []⟩, [5], [50]⟩ ⟨rfl, rfl, by decide, by decide, by decide⟩).1 5
     (by decide),
   (C2_grow_spec.2.2 Nat (InnerNode48.empty Nat) wf48_empty).1 5 (by decide)⟩

/-- Claim C6: for every inner-node class, `iter` yields exactly one
`(key_byte, child)` pair per populated child (membership in the iteration
coincides with a successful lookup, and the key bytes are strictly
ascending, hence each appears once), and `first_child` / `last_child` return
the child of the numerically smallest / largest key byte present, being
`None` exactly when the node has no children. -/
theorem C6_iter_first_last :
    (∀ (V : Type) (CAP : Nat) (n : SeqNode V), (CAP = 4 ∨ CAP = 16) → SeqNode.wf CAP n →
      (∀ b, b < 256 → ∀ p, ((b, p) ∈ SeqNode.iter n ↔ SeqNode.lookup_child n b = some p)) ∧
      List.Sorted (· < ·) ((SeqNode.iter n).map Prod.fst) ∧
      (SeqNode.first_child n = none ↔ ∀ b, b < 256 → SeqNode.lookup_child n b = none) ∧
      (∀ p, SeqNode.first_child n = some p →
        ∃ b, b < 256 ∧ SeqNode.lookup_child n b = some p ∧
          ∀ b2, b2 < 256 → ∀ p2, SeqNode.lookup_child n b2 = some p2 → b ≤ b2) ∧
      (SeqNode.last_child n = none ↔ ∀ b, b < 256 → SeqNode.lookup_child n b = none) ∧
      (∀ p, SeqNode.last_child n = some p →
        ∃ b, b < 256 ∧ SeqNode.lookup_child n b = some p ∧
          ∀ b2, b2 < 256 → ∀ p2, SeqNode.lookup_child n b2 = some p2 → b2 ≤ b)) ∧
    (∀ (V : Type) (n : InnerNode48 V), InnerNode48.wf n →
      (∀ b, b < 256 → ∀ p,
        ((b, p) ∈ InnerNode48.iter n ↔ InnerNode48.lookup_child n b = some p)) ∧
      List.Sorted (· < ·) ((InnerNode48.iter n).map Prod.fst) ∧
      (InnerNode48.first_child n = none ↔
        ∀ b, b < 256 → InnerNode48.lookup_child n b = none) ∧
      (∀ p, InnerNode48.first_child n = some p →
        ∃ b, b < 256 ∧ InnerNode48.lookup_child n b = some p ∧
          ∀ b2, b2 < 256 → ∀ p2, InnerNode48.lookup_child n b2 = some p2 → b ≤ b2) ∧
      (InnerNode48.last_child n = none ↔
        ∀ b, b < 256 → InnerNode48.lookup_child n b = none) ∧
      (∀ p, InnerNode48.last_child n = some p →
        ∃ b, b < 256 ∧ InnerNode48.lookup_child n b = some p ∧
          ∀ b2, b2 < 256 → ∀ p2, InnerNode48.lookup_child n b2 = some p2 → b2 ≤ b)) ∧
    (∀ (V : Type) (n : InnerNode256 V), InnerNode256.wf n →
      (∀ b, b < 256 → ∀ p,
        ((b, p) ∈ InnerNode256.iter n ↔ InnerNode256.lookup_child n b = some p)) ∧
      List.Sorted (· < ·) ((InnerNode256.iter n).map Prod.fst) ∧
      (InnerNode256.first_child n = none ↔
        ∀ b, b < 256 → InnerNode256.lookup_child n b = none) ∧
      (∀ p, InnerNode256.first_child n = some p →
        ∃ b, b < 256 ∧ InnerNode256.lookup_child n b = some p ∧
          ∀ b2, b2 < 256 → ∀ p2, InnerNode256.lookup_child n b2 = some p2 → b ≤ b2) ∧
      (InnerNode256.last_child n = none ↔
        ∀ b, b < 256 → InnerNode256.lookup_child n b = none) ∧
      (∀ p, InnerNode256.last_child n = some p →
        ∃ b, b < 256 ∧ InnerNode256.lookup_child n b = some p ∧
          ∀ b2, b2 < 256 → ∀ p2, InnerNode256.lookup_child n b2 = some p2 → b2 ≤ b)) := by
  refine ⟨?_, ?_, ?_⟩
  · intro V CAP n _ hwf
    obtain ⟨hkl, hpl, hcap, hsorted, hbytes⟩ := hwf
    have hlen : n.child_pointers.length = n.keys.length := by omega
    have hnd : n.keys.Nodup := hsorted.nodup
    have hmem : ∀ b, b < 256 → ∀ p,
        ((b, p) ∈ SeqNode.iter n ↔ SeqNode.lookup_child n b = some p) :=
      fun b _ p => (seq_lookup_eq_some_iff n b p hlen hnd).symm
    have hbnd : ∀ pr ∈ SeqNode.iter n, pr.1 < 256 := by
      rintro ⟨b, p⟩ hpr
      exact hbytes b (List.of_mem_zip hpr).1
    have hsort : List.Sorted (· < ·) ((SeqNode.iter n).map Prod.fst) := by
      rw [SeqNode.iter, List.map_fst_zip _ _ (le_of_eq hlen.symm)]
      exact hsorted
    obtain ⟨h1, h2, h3, h4⟩ :=
      iter_first_last_spec (SeqNode.iter n) (SeqNode.lookup_child n) hmem hbnd hsort
    exact ⟨hmem, hsort, h1, h2, h3, h4⟩
  · intro V n _
    have hmem : ∀ b, b < 256 → ∀ p,
        ((b, p) ∈ InnerNode48.iter n ↔ InnerNode48.lookup_child n b = some p) :=
      fun b hb p =>
        ⟨fun h => ((iter48_mem n b p).mp h).2, fun h => (iter48_mem n b p).mpr ⟨hb, h⟩⟩
    have hbnd : ∀ pr ∈ InnerNode48.iter n, pr.1 < 256 := by
      rintro ⟨b, p⟩ hpr
      exact ((iter48_mem n b p).mp hpr).1
    obtain ⟨h1, h2, h3, h4⟩ :=
      iter_first_last_spec (InnerNode48.iter n) (InnerNode48.lookup_child n) hmem hbnd
        (iter48_fst_sorted n)
    exact ⟨hmem, iter48_fst_sorted n, h1, h2, h3, h4⟩
  · intro V n _
    have hmem : ∀ b, b < 256 → ∀ p,
        ((b, p) ∈ InnerNode256.iter n ↔ InnerNode256.lookup_child n b = some p) :=
      fun b hb p =>
        ⟨fun h => ((iter256_mem n b p).mp h).2, fun h => (iter256_mem n b p).mpr ⟨hb, h⟩⟩
    have hbnd : ∀ pr ∈ InnerNode256.iter n, pr.1 < 256 := by
      rintro ⟨b, p⟩ hpr
      exact ((iter256_mem n b p).mp hpr).1
    obtain ⟨h1, h2, h3, h4⟩ :=
      iter_first_last_spec (InnerNode256.iter n) (InnerNode256.lookup_child n) hmem hbnd
        (iter256_fst_sorted n)
    exact ⟨hmem, iter256_fst_sorted n, h1, h2, h3, h4⟩

/-- Witness for C6: one instantiation per class. -/
theorem C6_iter_first_last_witness :
    ((5, 50) ∈ SeqNode.iter (⟨⟨1, []⟩, [5], [50]⟩ : SeqNode Nat) ↔
      SeqNode.lookup_child (⟨⟨1, []⟩, [5], [50]⟩ : SeqNode Nat) 5 = some 50) ∧
    (InnerNode48.first_child (InnerNode48.empty Nat) = none ↔
      ∀ b, b < 256 → InnerNode48.lookup_child (InnerNode48.empty Nat) b = none) ∧
    List.Sorted (· < ·) ((InnerNode256.iter (InnerNode256.empty Nat)).map Prod.fst) :=
  ⟨(C6_iter_first_last.1 Nat 4 ⟨⟨1, []⟩, [5], [50]⟩ (Or.inl rfl)
      ⟨rfl, rfl, by decide, by decide, by decide⟩).1 5 (by decide) 50,
   (C6_iter_first_last.2.1 Nat (InnerNode48.empty Nat) wf48_empty).2.2.1,
   (C6_iter_first_last.2.2 Nat (InnerNode256.empty Nat) wf256_empty).2.1⟩

end Blart
